import Mathlib

/-!
Shallow embedding of `src/utilities/extendSchema.js`: extending a GraphQL
schema with the definitions and extensions of a document.

Modelling conventions:
* JS objects used as insertion-ordered string-keyed maps are modelled as
  `List (String × α)` with `insertKey` (assignment: replace in place, else
  append), `lookupKey`, and `unionObj` (the `{...a, ...b}` spread).
* The runtime type graph is modelled arena-style: every cross-type reference
  is the referenced type's name, resolved by lookup in the type map.  The
  source defers `fields` / `interfaces` / `types` thunks until after the map
  is fully populated ("build then freeze"), so they are modelled eagerly but
  resolved against the final key set `typeMapKeys` of the finished map.
* JS `undefined` leaking from a failed `typeMap[name]` lookup is the
  `TypeRef.undefined` leaf (for wrapped types) or `none` (for optional slots).
* Code that can throw returns `Except String`; the only throw site of the
  module is `getNamedType` (`Unknown type: "name".`).
-/

namespace GraphQL

/-! ### AST (`language/ast.js` shapes, restricted to what this module reads) -/

/-- A literal value node; only string literals are distinguished because the
module only ever reads string-valued directive arguments. -/
inductive ValueNode where
  | str (s : String)
  | someOther
deriving DecidableEq, Repr

/-- A directive application attached to an AST node (name plus named
arguments). -/
structure DirectiveAppNode where
  name : String
  args : List (String × ValueNode)
deriving DecidableEq, Repr

/-- An AST type reference: named / list-of / non-null-of. -/
inductive TypeRefNode where
  | named (name : String)
  | list (t : TypeRefNode)
  | nonNull (t : TypeRefNode)
deriving DecidableEq, Repr

/-- An `InputValueDefinition` node (argument or input field). -/
structure InputValueDefNode where
  name : String
  description : Option String
  type : TypeRefNode
  defaultValue : Option ValueNode
  directives : List DirectiveAppNode
deriving DecidableEq, Repr

/-- A `FieldDefinition` node.  `arguments` is optional in the AST. -/
structure FieldDefNode where
  name : String
  description : Option String
  arguments : Option (List InputValueDefNode)
  type : TypeRefNode
  directives : List DirectiveAppNode
deriving DecidableEq, Repr

/-- An `EnumValueDefinition` node. -/
structure EnumValueDefNode where
  name : String
  description : Option String
  directives : List DirectiveAppNode
deriving DecidableEq, Repr

/-- One of the three root operation kinds. -/
inductive OperationKind where
  | query
  | mutation
  | subscription
deriving DecidableEq, Repr

/-- An `OperationTypeDefinition` node; `type` is the named type node, held by
name. -/
structure OperationTypeDefNode where
  operation : OperationKind
  type : String
deriving DecidableEq, Repr

/-- The six type-definition / type-extension kinds. -/
inductive TypeNodeKind where
  | scalar
  | object
  | iface
  | union
  | enum
  | inputObject
deriving DecidableEq, Repr

/-- A type-definition or type-extension node.  The JS AST stores object
fields and input-object fields under the same key `fields` (with different
element node types); here they are split into `fields` and `inputFields`.
Substructure lists that are optional in the AST are `Option`s; extensions
carry `description := none`. -/
structure TypeNode where
  kind : TypeNodeKind
  name : String
  description : Option String
  directives : List DirectiveAppNode
  interfaces : Option (List String)
  fields : Option (List FieldDefNode)
  inputFields : Option (List InputValueDefNode)
  values : Option (List EnumValueDefNode)
  types : Option (List String)
deriving DecidableEq, Repr

/-- A `SchemaDefinition` or `SchemaExtension` node (extensions carry
`description := none`). -/
structure SchemaNode where
  description : Option String
  operationTypes : Option (List OperationTypeDefNode)
  directives : List DirectiveAppNode
deriving DecidableEq, Repr

/-- A `DirectiveDefinition` node; `locations` holds the location names. -/
structure DirectiveDefNode where
  name : String
  description : Option String
  locations : List String
  repeatable : Bool
  arguments : Option (List InputValueDefNode)
deriving DecidableEq, Repr

/-- A top-level definition, tagged the way the partitioner classifies it
(`Kind.SCHEMA_DEFINITION`, `Kind.SCHEMA_EXTENSION`, `isTypeDefinitionNode`,
`isTypeExtensionNode`, `Kind.DIRECTIVE_DEFINITION`, anything else).
`someOther` covers the executable definitions the loop ignores, carrying
their kind string. -/
inductive Definition where
  | schemaDef (node : SchemaNode)
  | schemaExt (node : SchemaNode)
  | typeDef (node : TypeNode)
  | typeExt (node : TypeNode)
  | directiveDef (node : DirectiveDefNode)
  | someOther (k : String)
deriving DecidableEq, Repr

/-- A document AST: an ordered list of top-level definitions. -/
structure Document where
  definitions : List Definition
deriving DecidableEq, Repr

/-! ### JS-object map operations (`jsutils` and object spread semantics) -/

/-- Lookup in an insertion-ordered string-keyed map. -/
def lookupKey {α : Type} : List (String × α) → String → Option α
  | [], _ => none
  | (k, v) :: rest, n => if k = n then some v else lookupKey rest n

/-- JS property assignment `m[k] = v`: replace in place if the key exists,
otherwise append (insertion order preserved). -/
def insertKey {α : Type} : List (String × α) → String → α → List (String × α)
  | [], n, v => [(n, v)]
  | (k, w) :: rest, n, v =>
      if k = n then (k, v) :: rest else (k, w) :: insertKey rest n v

/-- The JS object spread `{...a, ...b}`: every entry of `b`, in order,
assigned over `a`. -/
def unionObj {α : Type} (a b : List (String × α)) : List (String × α) :=
  b.foldl (fun m kv => insertKey m kv.1 kv.2) a

/-- Source `jsutils/mapValue.js`: map over values, keys and order preserved. -/
def mapValue {α β : Type} (f : α → β) (m : List (String × α)) : List (String × β) :=
  m.map (fun kv => (kv.1, f kv.2))

/-- Source `polyfills/objectValues.js`: the values, in key insertion order. -/
def objectValues {α : Type} (m : List (String × α)) : List α :=
  m.map Prod.snd

/-- Source `jsutils/keyMap.js`: index a list by a key function. -/
def keyMap {α : Type} (l : List α) (f : α → String) : List (String × α) :=
  l.foldl (fun m x => insertKey m (f x) x) []

/-- Append a key to a key list unless already present (JS object key
creation order). -/
def addKey (ks : List String) (n : String) : List String :=
  if ks.contains n then ks else ks ++ [n]

/-! ### Runtime type system (`type/definition.js` configs, arena-style) -/

/-- A resolved type reference.  `undefined` is JS `undefined` leaked from a
failed `typeMap[name]` lookup (the source deliberately does not assert). -/
inductive TypeRef where
  | named (name : String)
  | list (t : TypeRef)
  | nonNull (t : TypeRef)
  | undefined
deriving DecidableEq, Repr

/-- Modelled from the spec: the external literal-to-value collaborator
(`utilities/valueFromAST.js`, outside this core) takes an AST value node and
a target type and returns a typed value or fails; its result is modelled
abstractly as the pair it was invoked on. -/
inductive EvalValue where
  | fromAST (v : ValueNode) (t : TypeRef)
deriving DecidableEq, Repr

/-- A directive- or field-argument config. -/
structure ArgConfig where
  type : TypeRef
  description : Option String
  defaultValue : Option EvalValue
  deprecationReason : Option String
  astNode : Option InputValueDefNode
deriving DecidableEq, Repr

/-- A field config of an object or interface type. -/
structure FieldConfig where
  type : TypeRef
  description : Option String
  args : List (String × ArgConfig)
  deprecationReason : Option String
  astNode : Option FieldDefNode
deriving DecidableEq, Repr

/-- An input-object field config. -/
structure InputFieldConfig where
  type : TypeRef
  description : Option String
  defaultValue : Option EvalValue
  deprecationReason : Option String
  astNode : Option InputValueDefNode
deriving DecidableEq, Repr

/-- An enum value config. -/
structure EnumValueConfig where
  description : Option String
  deprecationReason : Option String
  astNode : Option EnumValueDefNode
deriving DecidableEq, Repr

/-- A named runtime type (one of the six kinds), carrying the same config
data as the `GraphQL*Type` classes.  Cross-type references (interfaces,
union members) are names; an element can be `none` when the source would
have stored `undefined`. -/
inductive NamedType where
  | scalar (name : String) (description : Option String) (specifiedByUrl : Option String)
      (astNode : Option TypeNode) (extensionASTNodes : List TypeNode)
  | object (name : String) (description : Option String) (interfaces : List (Option String))
      (fields : List (String × FieldConfig)) (astNode : Option TypeNode)
      (extensionASTNodes : List TypeNode)
  | iface (name : String) (description : Option String) (interfaces : List (Option String))
      (fields : List (String × FieldConfig)) (astNode : Option TypeNode)
      (extensionASTNodes : List TypeNode)
  | union (name : String) (description : Option String) (types : List (Option String))
      (astNode : Option TypeNode) (extensionASTNodes : List TypeNode)
  | enum (name : String) (description : Option String) (values : List (String × EnumValueConfig))
      (astNode : Option TypeNode) (extensionASTNodes : List TypeNode)
  | inputObject (name : String) (description : Option String)
      (fields : List (String × InputFieldConfig)) (astNode : Option TypeNode)
      (extensionASTNodes : List TypeNode)
deriving DecidableEq, Repr

/-- The name of a named type. -/
def NamedType.name : NamedType → String
  | .scalar n _ _ _ _ => n
  | .object n _ _ _ _ _ => n
  | .iface n _ _ _ _ _ => n
  | .union n _ _ _ _ => n
  | .enum n _ _ _ _ => n
  | .inputObject n _ _ _ _ => n

/-- Source `isScalarType`. -/
def NamedType.isScalarB : NamedType → Bool
  | .scalar _ _ _ _ _ => true
  | _ => false

/-- The field map of an object or interface type (empty for other kinds). -/
def NamedType.fieldsOf : NamedType → List (String × FieldConfig)
  | .object _ _ _ f _ _ => f
  | .iface _ _ _ f _ _ => f
  | _ => []

/-- A directive config (`GraphQLDirective`). -/
structure DirectiveConfig where
  name : String
  description : Option String
  locations : List String
  isRepeatable : Bool
  args : List (String × ArgConfig)
  astNode : Option DirectiveDefNode
deriving DecidableEq, Repr

/-- A schema configuration (`GraphQLSchema#toConfig()`): the root types by
name, the full named-type list, the directive list, and provenance. -/
structure SchemaConfig where
  description : Option String
  query : Option String
  mutation : Option String
  subscription : Option String
  types : List NamedType
  directives : List DirectiveConfig
  extensions : Option Unit
  astNode : Option SchemaNode
  extensionASTNodes : List SchemaNode
  assumeValid : Bool
deriving DecidableEq, Repr

/-- A `GraphQLSchema` instance, as the carrier of its configuration. -/
structure GraphQLSchema where
  config : SchemaConfig
deriving DecidableEq, Repr

/-- Source `schema.toConfig()`. -/
def GraphQLSchema.toConfig (s : GraphQLSchema) : SchemaConfig := s.config

/-- Source `new GraphQLSchema(config)` (the constructor itself lives outside this
module). -/
def GraphQLSchema.ofConfig (c : SchemaConfig) : GraphQLSchema := ⟨c⟩

/-- The `options` argument: `{assumeValid?, assumeValidSDL?}`. -/
structure Options where
  assumeValid : Option Bool
  assumeValidSDL : Option Bool
deriving DecidableEq, Repr

/-! ### Built-in type table (`type/scalars.js`, `type/introspection.js`) -/

/-- Modelled from the spec: the names of the specification-defined scalar
types (`type/scalars.js` is not part of this core). -/
def specifiedScalarNames : List String :=
  ["String", "Int", "Float", "Boolean", "ID"]

/-- Modelled from the spec: the names of the introspection types
(`type/introspection.js` is not part of this core). -/
def introspectionTypeNames : List String :=
  ["__Schema", "__Directive", "__DirectiveLocation", "__Type", "__Field",
   "__InputValue", "__EnumValue", "__TypeKind"]

/-- Modelled from the spec: the specification-defined scalar type instances;
only their names and scalar kind are specified by this core. -/
def specifiedScalarTypes : List NamedType :=
  specifiedScalarNames.map (fun n => .scalar n none none none [])

/-- Modelled from the spec: the introspection type instances; their internal
structure is outside this core, only their identity matters here. -/
def introspectionTypes : List NamedType :=
  introspectionTypeNames.map (fun n => .object n none [] [] none [])

/-- Source `stdTypeMap = keyMap(specifiedScalarTypes.concat(introspectionTypes), t => t.name)`. -/
def stdTypeMap : List (String × NamedType) :=
  keyMap (specifiedScalarTypes ++ introspectionTypes) NamedType.name

/-- Modelled from the spec: `isSpecifiedScalarType` — a scalar type whose
name matches a specification scalar. -/
def isSpecifiedScalarType (t : NamedType) : Bool :=
  t.isScalarB && specifiedScalarNames.contains t.name

/-- Modelled from the spec: `isIntrospectionType` — a type whose name
matches an introspection type. -/
def isIntrospectionType (t : NamedType) : Bool :=
  introspectionTypeNames.contains t.name

/-! ### Metadata extractors (lines 540-552 plus the `execution/values.js`
collaborator) -/

/-- The string carried by a string value node. -/
def ValueNode.asString : ValueNode → Option String
  | .str s => some s
  | .someOther => none

/-- Modelled from the spec: the external directive-argument extraction
collaborator (`execution/values.js` is not part of this core) — the
arguments of the first application of the named directive, if applied. -/
def getDirectiveValues (dirName : String) (ds : List DirectiveAppNode) :
    Option (List (String × ValueNode)) :=
  (ds.find? (fun d => d.name == dirName)).map DirectiveAppNode.args

/-- Source `getDeprecationReason` (line 540): the `reason` argument of an applied
`@deprecated` directive. -/
def getDeprecationReason (ds : List DirectiveAppNode) : Option String :=
  (getDirectiveValues "deprecated" ds).bind fun args =>
    (lookupKey args "reason").bind ValueNode.asString

/-- Source `getSpecifiedByUrl` (line 549): the `url` argument of an applied
`@specifiedBy` directive. -/
def getSpecifiedByUrl (node : TypeNode) : Option String :=
  (getDirectiveValues "specifiedBy" node.directives).bind fun args =>
    (lookupKey args "url").bind ValueNode.asString

/-- The external `valueFromAST` collaborator, abstractly (see `EvalValue`). -/
def valueFromAST (v : Option ValueNode) (t : TypeRef) : Option EvalValue :=
  v.map (fun n => EvalValue.fromAST n t)

/-! ### Error-propagating iteration (JS `for` loops over throwing bodies) -/

/-- A left fold whose body may throw: the JS `for` loop with a `throw`
inside propagating out of the whole call. -/
def foldE {α β : Type} (f : β → α → Except String β) : β → List α → Except String β
  | b, [] => .ok b
  | b, a :: l =>
      match f b a with
      | .error e => .error e
      | .ok b2 => foldE f b2 l

/-- Source `Array#map` over a throwing body, left to right. -/
def mapE {α β : Type} (f : α → Except String β) : List α → Except String (List β)
  | [] => .ok []
  | a :: l =>
      match f a with
      | .error e => .error e
      | .ok b =>
          match mapE f l with
          | .error e => .error e
          | .ok bs => .ok (b :: bs)

/-! ### Document partitioner (lines 46-77) -/

/-- The five partitioned collections of the single classification pass. -/
structure Partition where
  typeDefs : List TypeNode
  typeExtensionsMap : List (String × List TypeNode)
  directiveDefs : List DirectiveDefNode
  schemaDef : Option SchemaNode
  schemaExtensions : List SchemaNode
deriving DecidableEq, Repr

/-- One step of the classification loop (lines 57-71).  A later schema
definition overwrites an earlier one; extension nodes are appended to the
list keyed by their target name; other definitions are ignored. -/
def partitionStep (p : Partition) (d : Definition) : Partition :=
  match d with
  | .schemaDef node => { p with schemaDef := some node }
  | .schemaExt node => { p with schemaExtensions := p.schemaExtensions ++ [node] }
  | .typeDef node => { p with typeDefs := p.typeDefs ++ [node] }
  | .typeExt node =>
      let existing := (lookupKey p.typeExtensionsMap node.name).getD []
      { p with typeExtensionsMap := insertKey p.typeExtensionsMap node.name (existing ++ [node]) }
  | .directiveDef node => { p with directiveDefs := p.directiveDefs ++ [node] }
  | .someOther _ => p

/-- The empty partition. -/
def emptyPartition : Partition := ⟨[], [], [], none, []⟩

/-- The classification pass over the document's definitions. -/
def partitionDefs (defs : List Definition) : Partition :=
  defs.foldl partitionStep emptyPartition

/-- The no-op condition of line 75: all four collections and the
schema-definition slot are empty. -/
def noOpSignal (p : Partition) : Bool :=
  p.typeExtensionsMap.isEmpty && p.typeDefs.isEmpty && p.directiveDefs.isEmpty &&
    p.schemaExtensions.isEmpty && p.schemaDef.isNone

/-! ### Type reference resolver (lines 112-131, 279-301).  `keys` is the key
set of the frozen type map; every thunk fires only after the map is fully
populated, so eager resolution against `keys` is the thunk semantics. -/

/-- The message of the module's only direct throw (line 284). -/
def unknownTypeMsg (n : String) : String :=
  "Unknown type: \"" ++ n ++ "\"."

/-- Source `replaceNamedType` (line 126): `typeMap[type.name]`, `none` for a missed
lookup (JS `undefined`; no assertion by design). -/
def replaceNamedType (keys : List String) (name : String) : Option String :=
  if keys.contains name then some name else none

/-- Source `replaceType` (line 112): rebuild list/non-null wrappers around the
re-resolved named leaf; a missed lookup leaves `undefined` in the slot. -/
def replaceType (keys : List String) : TypeRef → TypeRef
  | .list t => .list (replaceType keys t)
  | .nonNull t => .nonNull (replaceType keys t)
  | .named n =>
      match replaceNamedType keys n with
      | some m => .named m
      | none => .undefined
  | .undefined => .undefined

/-- Source `getNamedType` (line 279): `stdTypeMap[name] ?? typeMap[name]`, throwing
`Unknown type` when both lookups miss. -/
def getNamedType (keys : List String) (name : String) : Except String String :=
  match lookupKey stdTypeMap name with
  | some _ => .ok name
  | none => if keys.contains name then .ok name else .error (unknownTypeMsg name)

/-- Source `getWrappedType` (line 290). -/
def getWrappedType (keys : List String) : TypeRefNode → Except String TypeRef
  | .list t =>
      match getWrappedType keys t with
      | .error e => .error e
      | .ok r => .ok (.list r)
  | .nonNull t =>
      match getWrappedType keys t with
      | .error e => .error e
      | .ok r => .ok (.nonNull r)
  | .named n =>
      match getNamedType keys n with
      | .error e => .error e
      | .ok m => .ok (.named m)

/-! ### Builders from AST nodes (lines 303-443) -/

/-- Source `extendArg` (line 255). -/
def extendArg (keys : List String) (a : ArgConfig) : ArgConfig :=
  { a with type := replaceType keys a.type }

/-- Source `extendField` (line 247). -/
def extendField (keys : List String) (f : FieldConfig) : FieldConfig :=
  { f with type := replaceType keys f.type, args := mapValue (extendArg keys) f.args }

/-- Source `replaceDirective` (line 133). -/
def replaceDirective (keys : List String) (d : DirectiveConfig) : DirectiveConfig :=
  { d with args := mapValue (extendArg keys) d.args }

/-- The argument config built for one `InputValueDefinition` (lines 346-357). -/
def buildArgConfig (keys : List String) (a : InputValueDefNode) : Except String ArgConfig :=
  match getWrappedType keys a.type with
  | .error e => .error e
  | .ok t =>
      .ok { type := t, description := a.description,
            defaultValue := valueFromAST a.defaultValue t,
            deprecationReason := getDeprecationReason a.directives, astNode := some a }

/-- Source `buildArgumentMap` (line 341): an absent argument list is empty. -/
def buildArgumentMap (keys : List String) (args : Option (List InputValueDefNode)) :
    Except String (List (String × ArgConfig)) :=
  foldE (fun m a =>
      match buildArgConfig keys a with
      | .error e => .error e
      | .ok c => .ok (insertKey m a.name c))
    [] (args.getD [])

/-- The field config built for one `FieldDefinition` (lines 325-334). -/
def buildFieldConfig (keys : List String) (f : FieldDefNode) : Except String FieldConfig :=
  match getWrappedType keys f.type with
  | .error e => .error e
  | .ok t =>
      match buildArgumentMap keys f.arguments with
      | .error e => .error e
      | .ok args =>
          .ok { type := t, description := f.description, args := args,
                deprecationReason := getDeprecationReason f.directives, astNode := some f }

/-- Source `buildFieldMap` (line 317): fields of every node in order, an absent
field list treated as empty, later declarations overwriting earlier ones. -/
def buildFieldMap (keys : List String) (nodes : List TypeNode) :
    Except String (List (String × FieldConfig)) :=
  foldE (fun m node =>
      foldE (fun m f =>
          match buildFieldConfig keys f with
          | .error e => .error e
          | .ok c => .ok (insertKey m f.name c))
        m (node.fields.getD []))
    [] nodes

/-- The input-field config built for one `InputValueDefinition`
(lines 374-381). -/
def buildInputFieldConfig (keys : List String) (f : InputValueDefNode) :
    Except String InputFieldConfig :=
  match getWrappedType keys f.type with
  | .error e => .error e
  | .ok t =>
      .ok { type := t, description := f.description,
            defaultValue := valueFromAST f.defaultValue t,
            deprecationReason := getDeprecationReason f.directives, astNode := some f }

/-- Source `buildInputFieldMap` (line 363). -/
def buildInputFieldMap (keys : List String) (nodes : List TypeNode) :
    Except String (List (String × InputFieldConfig)) :=
  foldE (fun m node =>
      foldE (fun m f =>
          match buildInputFieldConfig keys f with
          | .error e => .error e
          | .ok c => .ok (insertKey m f.name c))
        m (node.inputFields.getD []))
    [] nodes

/-- Source `buildEnumValueMap` (line 388); never throws. -/
def buildEnumValueMap (nodes : List TypeNode) : List (String × EnumValueConfig) :=
  nodes.foldl (fun m node =>
      (node.values.getD []).foldl (fun m v =>
          insertKey m v.name
            { description := v.description,
              deprecationReason := getDeprecationReason v.directives, astNode := some v })
        m)
    []

/-- Source `buildInterfaces` (line 407): every interface reference of every node,
resolved, in order. -/
def buildInterfaces (keys : List String) (nodes : List TypeNode) :
    Except String (List String) :=
  foldE (fun acc node =>
      foldE (fun acc nm =>
          match getNamedType keys nm with
          | .error e => .error e
          | .ok t => .ok (acc ++ [t]))
        acc (node.interfaces.getD []))
    [] nodes

/-- Source `buildUnionTypes` (line 426). -/
def buildUnionTypes (keys : List String) (nodes : List TypeNode) :
    Except String (List String) :=
  foldE (fun acc node =>
      foldE (fun acc nm =>
          match getNamedType keys nm with
          | .error e => .error e
          | .ok t => .ok (acc ++ [t]))
        acc (node.types.getD []))
    [] nodes

/-- The root operation slots collected by `getOperationTypes`; a `none` slot
was never assigned. -/
structure OpTypes where
  query : Option String
  mutation : Option String
  subscription : Option String
deriving DecidableEq, Repr

/-- Source `opTypes[operationType.operation] = ...`. -/
def setOp (ops : OpTypes) (k : OperationKind) (t : String) : OpTypes :=
  match k with
  | .query => { ops with query := some t }
  | .mutation => { ops with mutation := some t }
  | .subscription => { ops with subscription := some t }

/-- Source `getOperationTypes` (line 261): each declared entry of each node in
order overwrites its slot; an absent entry list is empty. -/
def getOperationTypes (keys : List String) (nodes : List SchemaNode) :
    Except String OpTypes :=
  foldE (fun ops node =>
      foldE (fun ops ot =>
          match getNamedType keys ot.type with
          | .error e => .error e
          | .ok t => .ok (setOp ops ot.operation t))
        ops (node.operationTypes.getD []))
    ⟨none, none, none⟩ nodes

/-- Source `buildDirective` (line 303). -/
def buildDirective (keys : List String) (node : DirectiveDefNode) :
    Except String DirectiveConfig :=
  match buildArgumentMap keys node.arguments with
  | .error e => .error e
  | .ok args =>
      .ok { name := node.name, description := node.description,
            locations := node.locations, isRepeatable := node.repeatable,
            args := args, astNode := some node }

/-! ### Named-type extension engine (lines 140-245, 445-532) -/

/-- Source `extendScalarType` (line 199): fold the extensions' `@specifiedBy` URLs
in document order, a later non-absent value winning. -/
def extendScalarType (extMap : List (String × List TypeNode)) (t : NamedType) : NamedType :=
  match t with
  | .scalar n d sbu ast ext =>
      let extensions := (lookupKey extMap n).getD []
      let sbu2 := extensions.foldl (fun acc e => getSpecifiedByUrl e <|> acc) sbu
      .scalar n d sbu2 ast (ext ++ extensions)
  | u => u

/-- Source `extendObjectType` (line 214): old interfaces re-resolved then new ones;
old fields re-pointed then merged with the extensions' fields (later wins). -/
def extendObjectType (keys : List String) (extMap : List (String × List TypeNode))
    (t : NamedType) : Except String NamedType :=
  match t with
  | .object n d ifs flds ast ext =>
      let extensions := (lookupKey extMap n).getD []
      match buildInterfaces keys extensions with
      | .error e => .error e
      | .ok newIfs =>
          match buildFieldMap keys extensions with
          | .error e => .error e
          | .ok newFields =>
              .ok (.object n d
                (ifs.map (fun r => r.bind (replaceNamedType keys)) ++ newIfs.map some)
                (unionObj (mapValue (extendField keys) flds) newFields)
                ast (ext ++ extensions))
  | u => .ok u

/-- Source `extendInterfaceType` (line 226). -/
def extendInterfaceType (keys : List String) (extMap : List (String × List TypeNode))
    (t : NamedType) : Except String NamedType :=
  match t with
  | .iface n d ifs flds ast ext =>
      let extensions := (lookupKey extMap n).getD []
      match buildInterfaces keys extensions with
      | .error e => .error e
      | .ok newIfs =>
          match buildFieldMap keys extensions with
          | .error e => .error e
          | .ok newFields =>
              .ok (.iface n d
                (ifs.map (fun r => r.bind (replaceNamedType keys)) ++ newIfs.map some)
                (unionObj (mapValue (extendField keys) flds) newFields)
                ast (ext ++ extensions))
  | u => .ok u

/-- Source `extendUnionType` (line 238). -/
def extendUnionType (keys : List String) (extMap : List (String × List TypeNode))
    (t : NamedType) : Except String NamedType :=
  match t with
  | .union n d ts ast ext =>
      let extensions := (lookupKey extMap n).getD []
      match buildUnionTypes keys extensions with
      | .error e => .error e
      | .ok newTs =>
          .ok (.union n d
            (ts.map (fun r => r.bind (replaceNamedType keys)) ++ newTs.map some)
            ast (ext ++ extensions))
  | u => .ok u

/-- Source `extendEnumType` (line 188). -/
def extendEnumType (extMap : List (String × List TypeNode)) (t : NamedType) : NamedType :=
  match t with
  | .enum n d vals ast ext =>
      let extensions := (lookupKey extMap n).getD []
      .enum n d (unionObj vals (buildEnumValueMap extensions)) ast (ext ++ extensions)
  | u => u

/-- Source `extendInputObjectType` (line 175). -/
def extendInputObjectType (keys : List String) (extMap : List (String × List TypeNode))
    (t : NamedType) : Except String NamedType :=
  match t with
  | .inputObject n d flds ast ext =>
      let extensions := (lookupKey extMap n).getD []
      match buildInputFieldMap keys extensions with
      | .error e => .error e
      | .ok newFields =>
          .ok (.inputObject n d
            (unionObj (mapValue (fun f => { f with type := replaceType keys f.type }) flds)
              newFields)
            ast (ext ++ extensions))
  | u => .ok u

/-- Source `extendNamedType` (line 140): built-in (specification scalar or
introspection) types are returned unchanged; everything else dispatches by
kind. -/
def extendNamedType (keys : List String) (extMap : List (String × List TypeNode))
    (t : NamedType) : Except String NamedType :=
  if isIntrospectionType t || isSpecifiedScalarType t then .ok t
  else
    match t with
    | .scalar _ _ _ _ _ => .ok (extendScalarType extMap t)
    | .object _ _ _ _ _ _ => extendObjectType keys extMap t
    | .iface _ _ _ _ _ _ => extendInterfaceType keys extMap t
    | .union _ _ _ _ _ => extendUnionType keys extMap t
    | .enum _ _ _ _ _ => .ok (extendEnumType extMap t)
    | .inputObject _ _ _ _ _ => extendInputObjectType keys extMap t

/-- Source `buildType` (line 445): construct a fresh type from a definition node
plus the extension nodes sharing its name. -/
def buildType (keys : List String) (extMap : List (String × List TypeNode))
    (node : TypeNode) : Except String NamedType :=
  let name := node.name
  let extensionNodes := (lookupKey extMap name).getD []
  let allNodes := node :: extensionNodes
  match node.kind with
  | .object =>
      match buildInterfaces keys allNodes with
      | .error e => .error e
      | .ok ifs =>
          match buildFieldMap keys allNodes with
          | .error e => .error e
          | .ok flds =>
              .ok (.object name node.description (ifs.map some) flds (some node) extensionNodes)
  | .iface =>
      match buildInterfaces keys allNodes with
      | .error e => .error e
      | .ok ifs =>
          match buildFieldMap keys allNodes with
          | .error e => .error e
          | .ok flds =>
              .ok (.iface name node.description (ifs.map some) flds (some node) extensionNodes)
  | .enum =>
      .ok (.enum name node.description (buildEnumValueMap allNodes) (some node) extensionNodes)
  | .union =>
      match buildUnionTypes keys allNodes with
      | .error e => .error e
      | .ok ts =>
          .ok (.union name node.description (ts.map some) (some node) extensionNodes)
  | .scalar =>
      .ok (.scalar name node.description (getSpecifiedByUrl node) (some node) extensionNodes)
  | .inputObject =>
      match buildInputFieldMap keys allNodes with
      | .error e => .error e
      | .ok flds =>
          .ok (.inputObject name node.description flds (some node) extensionNodes)

/-! ### Schema assembler (lines 75-108) -/

/-- The key set of the finished type map: every existing type's name, then
every new definition's name (lines 81-88). -/
def typeMapKeys (cfg : SchemaConfig) (typeDefs : List TypeNode) : List String :=
  typeDefs.foldl (fun ks node => addKey ks node.name)
    (cfg.types.foldl (fun ks t => addKey ks t.name) [])

/-- The two registration loops of lines 81-88: re-register every existing
type (extended), then every new definition, a built-in name substituting the
built-in instance (`stdTypeMap[name] ?? buildType(typeNode)`). -/
def buildTypeMap (keys : List String) (extMap : List (String × List TypeNode))
    (cfg : SchemaConfig) (typeDefs : List TypeNode) :
    Except String (List (String × NamedType)) :=
  match foldE (fun m t =>
      match extendNamedType keys extMap t with
      | .error e => .error e
      | .ok t2 => .ok (insertKey m t.name t2))
    [] cfg.types with
  | .error e => .error e
  | .ok tm =>
      foldE (fun m node =>
          match lookupKey stdTypeMap node.name with
          | some std => .ok (insertKey m node.name std)
          | none =>
              match buildType keys extMap node with
              | .error e => .error e
              | .ok t => .ok (insertKey m node.name t))
        tm typeDefs

/-- The `schemaDef && getOperationTypes([schemaDef])` operand of line 96 (an
absent schema definition contributes no slots). -/
def schemaDefNodes (p : Partition) : List SchemaNode :=
  match p.schemaDef with
  | some sd => [sd]
  | none => []

/-- Lines 92-94: the base schema's root slots re-resolved through the new
map; an absent root, or a missed lookup, is an absent slot. -/
def baseRootTypes (keys : List String) (cfg : SchemaConfig) : OpTypes :=
  ⟨cfg.query.bind (replaceNamedType keys),
   cfg.mutation.bind (replaceNamedType keys),
   cfg.subscription.bind (replaceNamedType keys)⟩

/-- An object spread of root slots: every slot assigned by `b` overwrites
`a`. -/
def mergeOps (a b : OpTypes) : OpTypes :=
  ⟨b.query <|> a.query, b.mutation <|> a.mutation, b.subscription <|> a.subscription⟩

/-- Source `extendSchemaImpl` (line 46): partition, short-circuit on no-op, build
the type map, layer the root slots, rebuild plus append directives, and
assemble the output configuration. -/
def extendSchemaImpl (cfg : SchemaConfig) (doc : Document) (options : Option Options) :
    Except String SchemaConfig :=
  let p := partitionDefs doc.definitions
  if noOpSignal p then .ok cfg
  else
    let keys := typeMapKeys cfg p.typeDefs
    match buildTypeMap keys p.typeExtensionsMap cfg p.typeDefs with
    | .error e => .error e
    | .ok typeMap =>
        match getOperationTypes keys (schemaDefNodes p) with
        | .error e => .error e
        | .ok opsD =>
            match getOperationTypes keys p.schemaExtensions with
            | .error e => .error e
            | .ok opsE =>
                let ops := mergeOps (mergeOps (baseRootTypes keys cfg) opsD) opsE
                match mapE (buildDirective keys) p.directiveDefs with
                | .error e => .error e
                | .ok newDirectives =>
                    .ok { description := p.schemaDef.bind SchemaNode.description,
                          query := ops.query, mutation := ops.mutation,
                          subscription := ops.subscription,
                          types := objectValues typeMap,
                          directives := cfg.directives.map (replaceDirective keys) ++ newDirectives,
                          extensions := none,
                          astNode := p.schemaDef <|> cfg.astNode,
                          extensionASTNodes := cfg.extensionASTNodes ++ p.schemaExtensions,
                          assumeValid := (options.bind Options.assumeValid).getD false }

/-- Source `extendSchema` (line 30): pre-validate through the external collaborator
unless bypassed, run the build, and return the original schema instance when
the build returned the input configuration itself (the source compares by
reference; the no-op branch returns the very input object, captured here by
equality of configurations). -/
def extendSchema (assertValidSDLExtension : Document → GraphQLSchema → Except String Unit)
    (schema : GraphQLSchema) (documentAST : Document) (options : Option Options) :
    Except String GraphQLSchema :=
  let pre : Except String Unit :=
    if (options.bind Options.assumeValid) ≠ some true ∧
        (options.bind Options.assumeValidSDL) ≠ some true then
      assertValidSDLExtension documentAST schema
    else .ok ()
  match pre with
  | .error e => .error e
  | .ok _ =>
      let schemaConfig := schema.toConfig
      match extendSchemaImpl schemaConfig documentAST options with
      | .error e => .error e
      | .ok extendedConfig =>
          .ok (if extendedConfig = schemaConfig then schema
               else GraphQLSchema.ofConfig extendedConfig)

end GraphQL

namespace GraphQL

/-! ### Concrete instances used by individual theorems -/

/-- A base schema configuration carrying a description and nothing else. -/
def cfgDescBase : SchemaConfig :=
  ⟨some "base", none, none, none, [], [], none, none, [], false⟩

/-- A document declaring one scalar type and no schema definition. -/
def docOneScalar : Document :=
  ⟨[Definition.typeDef ⟨TypeNodeKind.scalar, "Example", none, [], none, none, none, none, none⟩]⟩

/-- An empty base schema configuration. -/
def cfgEmpty : SchemaConfig :=
  ⟨none, none, none, none, [], [], none, none, [], false⟩

/-- A schema-definition node carrying only a description. -/
def sdDescOnly : SchemaNode := ⟨some "docdesc", none, []⟩

/-- A document holding just `sdDescOnly`. -/
def docSchemaDefOnly : Document := ⟨[Definition.schemaDef sdDescOnly]⟩

/-- An object-type definition node with no members, by name. -/
def tnObj (n : String) : TypeNode :=
  ⟨TypeNodeKind.object, n, none, [], none, none, none, none, none⟩

/-- An empty object type named `A`. -/
def ntA : NamedType := .object "A" none [] [] none []

/-- A base schema whose query root is `A`. -/
def cfgRoots : SchemaConfig :=
  ⟨none, some "A", none, none, [ntA], [], none, none, [], false⟩

/-- A schema-definition node declaring query root `B`. -/
def sdRootB : SchemaNode := ⟨none, some [⟨OperationKind.query, "B"⟩], []⟩

/-- A schema-extension node declaring query root `C`. -/
def seRootC : SchemaNode := ⟨none, some [⟨OperationKind.query, "C"⟩], []⟩

/-- A document defining `B` and `C`, then overriding the query root to `B`
(schema definition) and to `C` (schema extension). -/
def docRoots : Document :=
  ⟨[Definition.typeDef (tnObj "B"), Definition.typeDef (tnObj "C"),
    Definition.schemaDef sdRootB, Definition.schemaExt seRootC]⟩

/-- The configuration `extendSchemaImpl cfgRoots docRoots none` produces. -/
def outRoots : SchemaConfig :=
  ⟨none, some "C", none, none,
   [ntA, .object "B" none [] [] (some (tnObj "B")) [],
    .object "C" none [] [] (some (tnObj "C")) []],
   [], none, some sdRootB, [seRootC], false⟩

/-- A field named `f` of type `String`. -/
def fldStr : FieldDefNode := ⟨"f", none, none, .named "String", []⟩

/-- A field named `f` of type `Int`. -/
def fldInt : FieldDefNode := ⟨"f", none, none, .named "Int", []⟩

/-- A first extension node for `T` declaring `f : String`. -/
def extT1 : TypeNode :=
  ⟨TypeNodeKind.object, "T", none, [], none, some [fldStr], none, none, none⟩

/-- A second extension node for `T` declaring `f : Int`. -/
def extT2 : TypeNode :=
  ⟨TypeNodeKind.object, "T", none, [], none, some [fldInt], none, none, none⟩

/-- The field config built from `fldInt`. -/
def cfInt : FieldConfig := ⟨.named "Int", none, [], none, some fldInt⟩

/-- A document defining object `T` with a field of the undefined type
`Missing`. -/
def docBadField : Document :=
  ⟨[Definition.typeDef ⟨TypeNodeKind.object, "T", none, [],
      none, some [⟨"f", none, none, .named "Missing", []⟩], none, none, none⟩]⟩

/-- A type-definition node trying to redefine the built-in `String`. -/
def nodeRedefString : TypeNode :=
  ⟨TypeNodeKind.scalar, "String", some "redefined", [], none, none, none, none, none⟩

/-- A document holding just `nodeRedefString`. -/
def docRedefString : Document := ⟨[Definition.typeDef nodeRedefString]⟩

/-- The configuration `extendSchemaImpl cfgEmpty docRedefString none`
produces: the built-in `String` instance, not a type built from the node. -/
def outRedef : SchemaConfig :=
  ⟨none, none, none, none, [NamedType.scalar "String" none none none []],
   [], none, none, [], false⟩

/-- An empty object type named `T`. -/
def ntT : NamedType := .object "T" none [] [] none []

/-- A base schema whose only type is `ntT`. -/
def cfgWithT : SchemaConfig := ⟨none, none, none, none, [ntT], [], none, none, [], false⟩

/-- A document node redefining `T` as an enum. -/
def nodeTEnum : TypeNode :=
  ⟨TypeNodeKind.enum, "T", none, [], none, none, none, none, none⟩

/-- A document holding just `nodeTEnum`. -/
def docTEnum : Document := ⟨[Definition.typeDef nodeTEnum]⟩

/-- The configuration `extendSchemaImpl cfgWithT docTEnum none` produces:
the document's enum overwrites the base object type. -/
def outOverwrite : SchemaConfig :=
  ⟨none, none, none, none, [NamedType.enum "T" none [] (some nodeTEnum) []],
   [], none, none, [], false⟩

/-! ### Helper lemmas -/

/-- Classifying only ignored definitions leaves the partition unchanged. -/
theorem foldl_partitionStep_other (l : List Definition) :
    ∀ (p : Partition), (∀ d ∈ l, ∃ k, d = Definition.someOther k) →
      l.foldl partitionStep p = p := by
  induction l with
  | nil => intro p _; rfl
  | cons d l ih =>
      intro p hall
      obtain ⟨k, hk⟩ := hall d (by simp)
      subst hk
      simpa [partitionStep] using ih p (fun d hd => hall d (by simp [hd]))

/-- A document of only ignored definitions partitions to the empty
partition. -/
theorem partition_all_other (defs : List Definition)
    (h : ∀ d ∈ defs, ∃ k, d = Definition.someOther k) :
    partitionDefs defs = emptyPartition :=
  foldl_partitionStep_other defs emptyPartition h

end GraphQL

namespace GraphQL

/-- The no-op signal holds for the empty partition. -/
theorem noOpSignal_empty : noOpSignal emptyPartition = true := rfl

/-- C2: a document whose top-level definitions are all of ignored kinds
(no schema definition, no schema extension, no type definition, no type
extension, no directive definition) makes `extendSchemaImpl` return the
input configuration itself, and `extendSchema` return the original schema
object. -/
theorem noop_identity (doc : Document)
    (h : ∀ d ∈ doc.definitions, ∃ k, d = Definition.someOther k) :
    (∀ (cfg : SchemaConfig) (opts : Option Options),
        extendSchemaImpl cfg doc opts = .ok cfg) ∧
    (∀ (v : Document → GraphQLSchema → Except String Unit) (schema : GraphQLSchema)
        (opts : Option Options), v doc schema = .ok () →
        extendSchema v schema doc opts = .ok schema) := by
  have hp : partitionDefs doc.definitions = emptyPartition := partition_all_other _ h
  have himpl : ∀ (cfg : SchemaConfig) (opts : Option Options),
      extendSchemaImpl cfg doc opts = .ok cfg := by
    intro cfg opts
    simp [extendSchemaImpl, hp, noOpSignal_empty]
  refine ⟨himpl, ?_⟩
  intro v schema opts hv
  have hpre : (if (opts.bind Options.assumeValid) ≠ some true ∧
      (opts.bind Options.assumeValidSDL) ≠ some true then
      v doc schema else .ok ()) = .ok () := by
    split
    · exact hv
    · rfl
  simp [extendSchema, hpre, himpl schema.toConfig opts]

/-- C2 witness: a document holding one executable definition is a no-op for
a concrete base schema. -/
theorem noop_identity_witness :
    extendSchemaImpl ⟨some "base", none, none, none, [], [], none, none, [], false⟩
        ⟨[Definition.someOther "OperationDefinition"]⟩ none =
      .ok ⟨some "base", none, none, none, [], [], none, none, [], false⟩ ∧
    extendSchema (fun _ _ => .ok ())
        ⟨⟨some "base", none, none, none, [], [], none, none, [], false⟩⟩
        ⟨[Definition.someOther "OperationDefinition"]⟩ none =
      .ok ⟨⟨some "base", none, none, none, [], [], none, none, [], false⟩⟩ :=
  ⟨(noop_identity _ (by intro d hd; simp at hd; exact ⟨_, hd⟩)).1 _ _,
   (noop_identity _ (by intro d hd; simp at hd; exact ⟨_, hd⟩)).2 _ _ _ rfl⟩

end GraphQL

namespace GraphQL

/-- C4: a base-schema type that is a specification-defined scalar or an
introspection type is returned unchanged by the extension engine, whatever
the extension map (hence whatever the document) holds for its name. -/
theorem builtin_immunity (keys : List String) (extMap : List (String × List TypeNode))
    (t : NamedType) (h : (isIntrospectionType t || isSpecifiedScalarType t) = true) :
    extendNamedType keys extMap t = .ok t := by
  simp [extendNamedType, h]

/-- C4 witness: the `String` scalar survives an extension map that targets
its name with a field-carrying extension node. -/
theorem builtin_immunity_witness :
    (isIntrospectionType (NamedType.scalar "String" none none none []) ||
      isSpecifiedScalarType (NamedType.scalar "String" none none none [])) = true ∧
    extendNamedType []
        [("String", [⟨TypeNodeKind.scalar, "String", none,
            [⟨"specifiedBy", [("url", ValueNode.str "http://x")]⟩], none, none, none, none, none⟩])]
        (NamedType.scalar "String" none none none []) =
      .ok (NamedType.scalar "String" none none none []) :=
  ⟨by decide, builtin_immunity _ _ _ (by decide)⟩

end GraphQL

namespace GraphQL

/-- A fold whose body leaves the accumulator unchanged succeeds with the
initial accumulator. -/
theorem foldE_const {α β : Type} (f : β → α → Except String β) (l : List α)
    (hstep : ∀ b a, a ∈ l → f b a = .ok b) : ∀ b, foldE f b l = .ok b := by
  induction l with
  | nil => intro b; rfl
  | cons a l ih =>
      intro b
      have h1 : f b a = .ok b := hstep b a (by simp)
      simp only [foldE, h1]
      exact ih (fun b a ha => hstep b a (by simp [ha])) b

/-- C9: every builder treats an absent optional substructure list (fields,
arguments, input fields, enum values, interfaces, union members, operation
types) as empty and completes without error. -/
theorem absent_substructure_empty :
    (∀ (keys : List String) (nodes : List TypeNode),
        (∀ node ∈ nodes, node.fields = none) → buildFieldMap keys nodes = .ok []) ∧
    (∀ keys : List String, buildArgumentMap keys none = .ok []) ∧
    (∀ (keys : List String) (nodes : List TypeNode),
        (∀ node ∈ nodes, node.inputFields = none) → buildInputFieldMap keys nodes = .ok []) ∧
    (∀ nodes : List TypeNode,
        (∀ node ∈ nodes, node.values = none) → buildEnumValueMap nodes = []) ∧
    (∀ (keys : List String) (nodes : List TypeNode),
        (∀ node ∈ nodes, node.interfaces = none) → buildInterfaces keys nodes = .ok []) ∧
    (∀ (keys : List String) (nodes : List TypeNode),
        (∀ node ∈ nodes, node.types = none) → buildUnionTypes keys nodes = .ok []) ∧
    (∀ (keys : List String) (nodes : List SchemaNode),
        (∀ node ∈ nodes, node.operationTypes = none) →
          getOperationTypes keys nodes = .ok ⟨none, none, none⟩) := by
  refine ⟨?_, ?_, ?_, ?_, ?_, ?_, ?_⟩
  · intro keys nodes h
    exact foldE_const _ _ (fun b node hn => by simp [h node hn, foldE]) []
  · intro keys; rfl
  · intro keys nodes h
    exact foldE_const _ _ (fun b node hn => by simp [h node hn, foldE]) []
  · intro nodes h
    induction nodes with
    | nil => rfl
    | cons node l ih =>
        have h1 : node.values = none := h node (by simp)
        simp only [buildEnumValueMap, List.foldl, h1, Option.getD]
        exact ih (fun d hd => h d (by simp [hd]))
  · intro keys nodes h
    exact foldE_const _ _ (fun b node hn => by simp [h node hn, foldE]) []
  · intro keys nodes h
    exact foldE_const _ _ (fun b node hn => by simp [h node hn, foldE]) []
  · intro keys nodes h
    unfold getOperationTypes
    refine foldE_const _ _ ?_ _
    intro b node hn
    simp [h node hn, foldE]

/-- C9 witness: concrete extension and schema nodes with every optional
substructure absent build to empty results without error. -/
theorem absent_substructure_empty_witness :
    buildFieldMap [] [⟨TypeNodeKind.object, "T", none, [], none, none, none, none, none⟩] = .ok [] ∧
    buildArgumentMap [] none = .ok [] ∧
    getOperationTypes [] [⟨none, none, []⟩] = .ok ⟨none, none, none⟩ :=
  ⟨absent_substructure_empty.1 [] _ (by intro node hn; simp at hn; simp [hn]),
   absent_substructure_empty.2.1 [],
   absent_substructure_empty.2.2.2.2.2.2 [] _ (by intro node hn; simp at hn; simp [hn])⟩

end GraphQL

namespace GraphQL

/-- C1 counterexample: for a base schema with a description and a non-no-op
document with no schema-definition node, the assembled configuration's
description is `none`, not the base schema's description (line 101 reads
only `schemaDef?.description?.value`, with no fallback). -/
theorem description_not_preserved_cex :
    noOpSignal (partitionDefs docOneScalar.definitions) = false ∧
    (partitionDefs docOneScalar.definitions).schemaDef = none ∧
    cfgDescBase.description = some "base" ∧
    (extendSchemaImpl cfgDescBase docOneScalar none).map SchemaConfig.description =
      .ok none :=
  ⟨rfl, rfl, rfl, rfl⟩

/-- C1 (amended): when the partitioner does not signal no-op, the assembled
configuration's description equals the schema-definition node's description
when that node is present, and is absent otherwise; the base schema's
description is never carried over. -/
theorem extended_description_from_schemaDef (cfg : SchemaConfig) (doc : Document)
    (opts : Option Options) (out : SchemaConfig)
    (hno : noOpSignal (partitionDefs doc.definitions) = false)
    (himpl : extendSchemaImpl cfg doc opts = .ok out) :
    out.description = (partitionDefs doc.definitions).schemaDef.bind SchemaNode.description := by
  simp only [extendSchemaImpl] at himpl
  split at himpl
  · simp_all
  · split at himpl
    · exact Except.noConfusion himpl
    · split at himpl
      · exact Except.noConfusion himpl
      · split at himpl
        · exact Except.noConfusion himpl
        · split at himpl
          · exact Except.noConfusion himpl
          · injection himpl with h
            rw [← h]

/-- C1 witness: with a schema-definition node carrying a description, the
output description is that node's description. -/
theorem extended_description_from_schemaDef_witness :
    noOpSignal (partitionDefs docSchemaDefOnly.definitions) = false ∧
    extendSchemaImpl cfgEmpty docSchemaDefOnly none =
      .ok ⟨some "docdesc", none, none, none, [], [], none, some sdDescOnly, [], false⟩ ∧
    SchemaConfig.description
        ⟨some "docdesc", none, none, none, [], [], none, some sdDescOnly, [], false⟩ =
      (partitionDefs docSchemaDefOnly.definitions).schemaDef.bind SchemaNode.description :=
  ⟨rfl, rfl, extended_description_from_schemaDef cfgEmpty docSchemaDefOnly none _ rfl rfl⟩

end GraphQL

namespace GraphQL

/-- C5: each root operation slot of the output is the last writer in the
order base-schema root (re-resolved through the new map), schema-definition
entry, schema-extension entries in document order (the later collections of
`getOperationTypes` already apply document order within themselves); a slot
never written stays absent. -/
theorem root_override_chain (cfg : SchemaConfig) (doc : Document) (opts : Option Options)
    (out : SchemaConfig) (opsD opsE : OpTypes)
    (hno : noOpSignal (partitionDefs doc.definitions) = false)
    (hD : getOperationTypes (typeMapKeys cfg (partitionDefs doc.definitions).typeDefs)
        (schemaDefNodes (partitionDefs doc.definitions)) = .ok opsD)
    (hE : getOperationTypes (typeMapKeys cfg (partitionDefs doc.definitions).typeDefs)
        (partitionDefs doc.definitions).schemaExtensions = .ok opsE)
    (himpl : extendSchemaImpl cfg doc opts = .ok out) :
    out.query = (opsE.query <|> (opsD.query <|>
        cfg.query.bind (replaceNamedType
          (typeMapKeys cfg (partitionDefs doc.definitions).typeDefs)))) ∧
    out.mutation = (opsE.mutation <|> (opsD.mutation <|>
        cfg.mutation.bind (replaceNamedType
          (typeMapKeys cfg (partitionDefs doc.definitions).typeDefs)))) ∧
    out.subscription = (opsE.subscription <|> (opsD.subscription <|>
        cfg.subscription.bind (replaceNamedType
          (typeMapKeys cfg (partitionDefs doc.definitions).typeDefs)))) := by
  simp only [extendSchemaImpl] at himpl
  split at himpl
  · simp_all
  · simp only [hD, hE] at himpl
    split at himpl
    · exact Except.noConfusion himpl
    · split at himpl
      · exact Except.noConfusion himpl
      · injection himpl with h
        refine ⟨?_, ?_, ?_⟩ <;> rw [← h] <;> rfl

/-- C5 witness: base query root `A`, schema definition declaring `B`, schema
extension declaring `C` — the final query root is `C`. -/
theorem root_override_chain_witness :
    noOpSignal (partitionDefs docRoots.definitions) = false ∧
    extendSchemaImpl cfgRoots docRoots none = .ok outRoots ∧
    outRoots.query = some "C" :=
  ⟨rfl, rfl, by
    have h := (root_override_chain cfgRoots docRoots none outRoots
      ⟨some "B", none, none⟩ ⟨some "C", none, none⟩ rfl rfl rfl rfl).1
    simpa using h⟩

end GraphQL

namespace GraphQL

/-- A string-keyed map with pairwise distinct keys. -/
def NodupKeys {α : Type} (m : List (String × α)) : Prop :=
  (m.map Prod.fst).Nodup

/-- Lookup after assignment at the same key. -/
theorem lookupKey_insertKey_self {α : Type} (m : List (String × α)) (k : String) (v : α) :
    lookupKey (insertKey m k v) k = some v := by
  induction m with
  | nil => simp [insertKey, lookupKey]
  | cons kv rest ih =>
      obtain ⟨k1, w⟩ := kv
      by_cases h : k1 = k
      · simp [insertKey, lookupKey, h]
      · simp [insertKey, lookupKey, h, ih]

/-- Lookup after assignment at a different key. -/
theorem lookupKey_insertKey_ne {α : Type} (m : List (String × α)) (k n : String) (v : α)
    (h : k ≠ n) : lookupKey (insertKey m k v) n = lookupKey m n := by
  induction m with
  | nil => simp [insertKey, lookupKey, h]
  | cons kv rest ih =>
      obtain ⟨k1, w⟩ := kv
      by_cases h1 : k1 = k
      · subst h1
        simp [insertKey, lookupKey, h]
      · simp [insertKey, lookupKey, h1, ih]

/-- A key absent from a map (by lookup) is not among its keys. -/
theorem lookupKey_none_not_mem {α : Type} (m : List (String × α)) (k : String)
    (h : lookupKey m k = none) : k ∉ m.map Prod.fst := by
  induction m with
  | nil => simp
  | cons kv rest ih =>
      obtain ⟨k1, w⟩ := kv
      by_cases h1 : k1 = k
      · simp [lookupKey, h1] at h
      · simp only [lookupKey, if_neg h1] at h
        simp only [List.map_cons, List.mem_cons]
        rintro (h2 | h2)
        · exact h1 h2.symm
        · exact ih h h2

/-- The key list after an assignment: unchanged for a present key, the key
appended for an absent one. -/
theorem keys_insertKey {α : Type} (m : List (String × α)) (k : String) (v : α) :
    (insertKey m k v).map Prod.fst =
      if (lookupKey m k).isNone then m.map Prod.fst ++ [k] else m.map Prod.fst := by
  induction m with
  | nil => simp [insertKey, lookupKey]
  | cons kv rest ih =>
      obtain ⟨k1, w⟩ := kv
      by_cases h1 : k1 = k
      · simp [insertKey, lookupKey, h1]
      · by_cases h2 : (lookupKey rest k).isNone
        · simp [insertKey, lookupKey, h1, ih, h2]
        · simp [insertKey, lookupKey, h1, ih, h2]

/-- Assignment preserves key distinctness. -/
theorem nodupKeys_insertKey {α : Type} (m : List (String × α)) (k : String) (v : α)
    (h : NodupKeys m) : NodupKeys (insertKey m k v) := by
  unfold NodupKeys at h ⊢
  rw [keys_insertKey]
  split
  · next hnone =>
      refine h.append (by simp) ?_
      intro a ha hb
      simp only [List.mem_singleton] at hb
      subst hb
      exact lookupKey_none_not_mem m a (Option.isNone_iff_eq_none.mp hnone) ha
  · exact h

/-- A spread does not touch keys absent from its right operand. -/
theorem lookupKey_unionObj_not_mem {α : Type} (b : List (String × α)) :
    ∀ (a : List (String × α)) (n : String), (∀ kv ∈ b, kv.1 ≠ n) →
      lookupKey (unionObj a b) n = lookupKey a n := by
  induction b with
  | nil => intro a n _; rfl
  | cons kv rest ih =>
      intro a n h
      obtain ⟨k, v⟩ := kv
      have hk : k ≠ n := h (k, v) (by simp)
      have hu : unionObj a ((k, v) :: rest) = unionObj (insertKey a k v) rest := rfl
      rw [hu, ih _ n (fun kv hkv => h kv (by simp [hkv]))]
      exact lookupKey_insertKey_ne a k n v hk

/-- A key present in the right operand of a spread (with distinct keys)
keeps the right operand's value. -/
theorem lookupKey_unionObj_right {α : Type} (b : List (String × α)) :
    ∀ (a : List (String × α)) (n : String) (c : α), NodupKeys b →
      lookupKey b n = some c → lookupKey (unionObj a b) n = some c := by
  induction b with
  | nil => intro a n c _ h; simp [lookupKey] at h
  | cons kv rest ih =>
      intro a n c hnd h
      obtain ⟨k, v⟩ := kv
      simp only [NodupKeys, List.map_cons, List.nodup_cons] at hnd
      have hu : unionObj a ((k, v) :: rest) = unionObj (insertKey a k v) rest := rfl
      by_cases hk : k = n
      · subst hk
        simp only [lookupKey, if_pos rfl] at h
        injection h with h
        subst h
        rw [hu, lookupKey_unionObj_not_mem rest _ k
          (fun kv hkv he => hnd.1 (he ▸ List.mem_map_of_mem Prod.fst hkv))]
        exact lookupKey_insertKey_self a k v
      · simp only [lookupKey, if_neg hk] at h
        rw [hu]
        exact ih _ n c hnd.2 h

/-- An invariant preserved by every successful step of a fold holds of its
result. -/
theorem foldE_preserve {α β : Type} (P : β → Prop) (f : β → α → Except String β)
    (hstep : ∀ b a b', P b → f b a = .ok b' → P b') :
    ∀ (l : List α) (b b' : β), P b → foldE f b l = .ok b' → P b' := by
  intro l
  induction l with
  | nil => intro b b' hP h; simp [foldE] at h; exact h ▸ hP
  | cons a l ih =>
      intro b b' hP h
      cases hfa : f b a with
      | error e => simp [foldE, hfa] at h
      | ok b2 =>
          simp only [foldE, hfa] at h
          exact ih b2 b' (hstep b a b2 hP hfa) h

/-- Source `buildFieldMap` yields a map with pairwise distinct keys. -/
theorem buildFieldMap_nodupKeys (keys : List String) (nodes : List TypeNode)
    (m : List (String × FieldConfig)) (h : buildFieldMap keys nodes = .ok m) :
    NodupKeys m := by
  unfold buildFieldMap at h
  refine foldE_preserve NodupKeys _ ?_ nodes [] m (by simp [NodupKeys]) h
  intro b node b' hP hstep
  refine foldE_preserve NodupKeys _ ?_ _ b b' hP hstep
  intro b2 f b2' hP2 hstep2
  cases hc : buildFieldConfig keys f with
  | error e => simp [hc] at hstep2
  | ok c =>
      simp only [hc] at hstep2
      injection hstep2 with h2
      exact h2 ▸ nodupKeys_insertKey b2 f.name c hP2

/-- Source `buildFieldConfig` records the node it was built from. -/
theorem buildFieldConfig_astNode (keys : List String) (f : FieldDefNode) (c : FieldConfig)
    (h : buildFieldConfig keys f = .ok c) : c.astNode = some f := by
  unfold buildFieldConfig at h
  split at h
  · exact Except.noConfusion h
  · split at h
    · exact Except.noConfusion h
    · injection h with h2
      rw [← h2]

end GraphQL

namespace GraphQL

/-- C7: for an object or interface type with extension nodes targeting its
name, the rebuilt field map is the old fields (re-pointed through the map)
spread with the fields declared by the extension nodes in document order; a
name declared by an extension silently replaces an existing one, and of two
extension declarations of the same field name the later node's declaration
(with its declared type) is the one kept. -/
theorem field_merge_last_wins :
    (∀ (keys : List String) (extMap : List (String × List TypeNode)) (n : String)
        (d : Option String) (ifs : List (Option String))
        (flds : List (String × FieldConfig)) (ast : Option TypeNode)
        (ext exts : List TypeNode) (newFields : List (String × FieldConfig)) (out : NamedType),
        lookupKey extMap n = some exts →
        introspectionTypeNames.contains n = false →
        buildFieldMap keys exts = .ok newFields →
        extendNamedType keys extMap (.object n d ifs flds ast ext) = .ok out →
        out.fieldsOf = unionObj (mapValue (extendField keys) flds) newFields) ∧
    (∀ (keys : List String) (extMap : List (String × List TypeNode)) (n : String)
        (d : Option String) (ifs : List (Option String))
        (flds : List (String × FieldConfig)) (ast : Option TypeNode)
        (ext exts : List TypeNode) (newFields : List (String × FieldConfig)) (out : NamedType),
        lookupKey extMap n = some exts →
        introspectionTypeNames.contains n = false →
        buildFieldMap keys exts = .ok newFields →
        extendNamedType keys extMap (.iface n d ifs flds ast ext) = .ok out →
        out.fieldsOf = unionObj (mapValue (extendField keys) flds) newFields) ∧
    (∀ (keys : List String) (exts : List TypeNode)
        (newFields flds : List (String × FieldConfig)) (fn : String) (c : FieldConfig),
        buildFieldMap keys exts = .ok newFields →
        lookupKey newFields fn = some c →
        lookupKey (unionObj (mapValue (extendField keys) flds) newFields) fn = some c) ∧
    (∀ (keys : List String) (e1 e2 : TypeNode) (f1 f2 : FieldDefNode)
        (m : List (String × FieldConfig)),
        e1.fields = some [f1] → e2.fields = some [f2] → f2.name = f1.name →
        buildFieldMap keys [e1, e2] = .ok m →
        ∃ c, buildFieldConfig keys f2 = .ok c ∧ lookupKey m f1.name = some c ∧
          c.astNode = some f2) := by
  refine ⟨?_, ?_, ?_, ?_⟩
  · intro keys extMap n d ifs flds ast ext exts newFields out hlk hintro hbfm hext
    unfold extendNamedType at hext
    simp only [isIntrospectionType, isSpecifiedScalarType, NamedType.isScalarB,
      NamedType.name, hintro, Bool.false_and, Bool.and_false, Bool.or_false,
      Bool.false_or, Bool.false_eq_true, if_false] at hext
    unfold extendObjectType at hext
    simp only [hlk, Option.getD_some, hbfm] at hext
    split at hext
    · exact Except.noConfusion hext
    · injection hext with h
      rw [← h]
      rfl
  · intro keys extMap n d ifs flds ast ext exts newFields out hlk hintro hbfm hext
    unfold extendNamedType at hext
    simp only [isIntrospectionType, isSpecifiedScalarType, NamedType.isScalarB,
      NamedType.name, hintro, Bool.false_and, Bool.and_false, Bool.or_false,
      Bool.false_or, Bool.false_eq_true, if_false] at hext
    unfold extendInterfaceType at hext
    simp only [hlk, Option.getD_some, hbfm] at hext
    split at hext
    · exact Except.noConfusion hext
    · injection hext with h
      rw [← h]
      rfl
  · intro keys exts newFields flds fn c hbfm hl
    exact lookupKey_unionObj_right newFields _ fn c
      (buildFieldMap_nodupKeys keys exts newFields hbfm) hl
  · intro keys e1 e2 f1 f2 m h1 h2 hname hm
    unfold buildFieldMap at hm
    simp only [foldE, h1, h2, Option.getD_some] at hm
    cases hc1 : buildFieldConfig keys f1 with
    | error e => simp [foldE, hc1] at hm
    | ok c1 =>
        simp only [foldE, hc1] at hm
        cases hc2 : buildFieldConfig keys f2 with
        | error e => simp [foldE, hc2] at hm
        | ok c2 =>
            simp only [foldE, hc2] at hm
            injection hm with h
            refine ⟨c2, rfl, ?_, buildFieldConfig_astNode keys f2 c2 hc2⟩
            rw [← h, hname]
            simp [insertKey, lookupKey]

end GraphQL

namespace GraphQL

/-- C7 witness: two extension nodes for `T` both declaring field `f`, as
`String` then as `Int` — the merged map keeps the second declaration, whose
type is `Int`. -/
theorem field_merge_last_wins_witness :
    buildFieldMap [] [extT1, extT2] = .ok [("f", cfInt)] ∧
    lookupKey [("f", cfInt)] "f" = some cfInt ∧
    cfInt.type = .named "Int" ∧ cfInt.astNode = some fldInt := by
  refine ⟨rfl, ?_, rfl, rfl⟩
  obtain ⟨c, hc, hl, _⟩ := field_merge_last_wins.2.2.2 [] extT1 extT2 fldStr fldInt
    [("f", cfInt)] rfl rfl rfl rfl
  have hcc : c = cfInt := by
    have : Except.ok c = Except.ok cfInt := hc.symm.trans rfl
    injection this
  exact hcc ▸ hl

end GraphQL

namespace GraphQL

/-- An error string of the module's only throw shape, for a name found
neither in the built-in table nor in the frozen key set. -/
def UnknownTypeErr (keys : List String) (e : String) : Prop :=
  ∃ n, e = unknownTypeMsg n ∧ lookupKey stdTypeMap n = none ∧ keys.contains n = false

/-- Any error of `getNamedType` is an unknown-type error. -/
theorem getNamedType_err (keys : List String) (name e : String)
    (h : getNamedType keys name = .error e) : UnknownTypeErr keys e := by
  unfold getNamedType at h
  cases hstd : lookupKey stdTypeMap name with
  | some v => simp [hstd] at h
  | none =>
      simp only [hstd] at h
      by_cases hk : keys.contains name
      · rw [if_pos hk] at h
        exact Except.noConfusion h
      · rw [if_neg hk] at h
        refine ⟨name, ?_, hstd, by simpa using hk⟩
        injection h with h2
        exact h2.symm

/-- Any error of a fold whose body only raises errors satisfying `P`
satisfies `P`. -/
theorem foldE_err {α β : Type} (P : String → Prop) (f : β → α → Except String β)
    (hf : ∀ b a e, f b a = .error e → P e) :
    ∀ (l : List α) (b : β) (e : String), foldE f b l = .error e → P e := by
  intro l
  induction l with
  | nil => intro b e h; simp [foldE] at h
  | cons a l ih =>
      intro b e h
      cases hfa : f b a with
      | error e2 =>
          simp only [foldE, hfa] at h
          injection h with h2
          exact h2 ▸ hf b a e2 hfa
      | ok b2 =>
          simp only [foldE, hfa] at h
          exact ih b2 e h

/-- Any error of a map whose body only raises errors satisfying `P`
satisfies `P`. -/
theorem mapE_err {α β : Type} (P : String → Prop) (f : α → Except String β)
    (hf : ∀ a e, f a = .error e → P e) :
    ∀ (l : List α) (e : String), mapE f l = .error e → P e := by
  intro l
  induction l with
  | nil => intro e h; simp [mapE] at h
  | cons a l ih =>
      intro e h
      cases hfa : f a with
      | error e2 =>
          simp only [mapE, hfa] at h
          injection h with h2
          exact h2 ▸ hf a e2 hfa
      | ok b =>
          simp only [mapE, hfa] at h
          cases hml : mapE f l with
          | error e2 =>
              simp only [hml] at h
              injection h with h2
              exact h2 ▸ ih e2 hml
          | ok bs => simp [hml] at h

/-- Any error of `getWrappedType` is an unknown-type error. -/
theorem getWrappedType_err (keys : List String) :
    ∀ (t : TypeRefNode) (e : String),
      getWrappedType keys t = .error e → UnknownTypeErr keys e := by
  intro t
  induction t with
  | named n =>
      intro e h
      unfold getWrappedType at h
      cases hg : getNamedType keys n with
      | error e2 =>
          simp only [hg] at h
          injection h with h2
          exact h2 ▸ getNamedType_err keys n e2 hg
      | ok m => simp [hg] at h
  | list t ih =>
      intro e h
      unfold getWrappedType at h
      cases hg : getWrappedType keys t with
      | error e2 =>
          simp only [hg] at h
          injection h with h2
          exact h2 ▸ ih e2 hg
      | ok r => simp [hg] at h
  | nonNull t ih =>
      intro e h
      unfold getWrappedType at h
      cases hg : getWrappedType keys t with
      | error e2 =>
          simp only [hg] at h
          injection h with h2
          exact h2 ▸ ih e2 hg
      | ok r => simp [hg] at h

/-- Any error of `buildArgConfig` is an unknown-type error. -/
theorem buildArgConfig_err (keys : List String) (a : InputValueDefNode) (e : String)
    (h : buildArgConfig keys a = .error e) : UnknownTypeErr keys e := by
  unfold buildArgConfig at h
  cases hg : getWrappedType keys a.type with
  | error e2 =>
      simp only [hg] at h
      injection h with h2
      exact h2 ▸ getWrappedType_err keys a.type e2 hg
  | ok t => simp [hg] at h

/-- Any error of `buildArgumentMap` is an unknown-type error. -/
theorem buildArgumentMap_err (keys : List String) (args : Option (List InputValueDefNode))
    (e : String) (h : buildArgumentMap keys args = .error e) : UnknownTypeErr keys e := by
  unfold buildArgumentMap at h
  refine foldE_err (UnknownTypeErr keys) _ ?_ _ _ _ h
  intro b a e2 hstep
  cases hc : buildArgConfig keys a with
  | error e3 =>
      simp only [hc] at hstep
      injection hstep with h2
      exact h2 ▸ buildArgConfig_err keys a e3 hc
  | ok c => simp [hc] at hstep

/-- Any error of `buildFieldConfig` is an unknown-type error. -/
theorem buildFieldConfig_err (keys : List String) (f : FieldDefNode) (e : String)
    (h : buildFieldConfig keys f = .error e) : UnknownTypeErr keys e := by
  unfold buildFieldConfig at h
  cases hg : getWrappedType keys f.type with
  | error e2 =>
      simp only [hg] at h
      injection h with h2
      exact h2 ▸ getWrappedType_err keys f.type e2 hg
  | ok t =>
      simp only [hg] at h
      cases ha : buildArgumentMap keys f.arguments with
      | error e2 =>
          simp only [ha] at h
          injection h with h2
          exact h2 ▸ buildArgumentMap_err keys f.arguments e2 ha
      | ok args => simp [ha] at h

/-- Any error of `buildFieldMap` is an unknown-type error. -/
theorem buildFieldMap_err (keys : List String) (nodes : List TypeNode) (e : String)
    (h : buildFieldMap keys nodes = .error e) : UnknownTypeErr keys e := by
  unfold buildFieldMap at h
  refine foldE_err (UnknownTypeErr keys) _ ?_ _ _ _ h
  intro b node e2 hstep
  refine foldE_err (UnknownTypeErr keys) _ ?_ _ _ _ hstep
  intro b2 f e3 hstep2
  cases hc : buildFieldConfig keys f with
  | error e4 =>
      simp only [hc] at hstep2
      injection hstep2 with h2
      exact h2 ▸ buildFieldConfig_err keys f e4 hc
  | ok c => simp [hc] at hstep2

/-- Any error of `buildInputFieldConfig` is an unknown-type error. -/
theorem buildInputFieldConfig_err (keys : List String) (f : InputValueDefNode) (e : String)
    (h : buildInputFieldConfig keys f = .error e) : UnknownTypeErr keys e := by
  unfold buildInputFieldConfig at h
  cases hg : getWrappedType keys f.type with
  | error e2 =>
      simp only [hg] at h
      injection h with h2
      exact h2 ▸ getWrappedType_err keys f.type e2 hg
  | ok t => simp [hg] at h

/-- Any error of `buildInputFieldMap` is an unknown-type error. -/
theorem buildInputFieldMap_err (keys : List String) (nodes : List TypeNode) (e : String)
    (h : buildInputFieldMap keys nodes = .error e) : UnknownTypeErr keys e := by
  unfold buildInputFieldMap at h
  refine foldE_err (UnknownTypeErr keys) _ ?_ _ _ _ h
  intro b node e2 hstep
  refine foldE_err (UnknownTypeErr keys) _ ?_ _ _ _ hstep
  intro b2 f e3 hstep2
  cases hc : buildInputFieldConfig keys f with
  | error e4 =>
      simp only [hc] at hstep2
      injection hstep2 with h2
      exact h2 ▸ buildInputFieldConfig_err keys f e4 hc
  | ok c => simp [hc] at hstep2

/-- Any error of `buildInterfaces` is an unknown-type error. -/
theorem buildInterfaces_err (keys : List String) (nodes : List TypeNode) (e : String)
    (h : buildInterfaces keys nodes = .error e) : UnknownTypeErr keys e := by
  unfold buildInterfaces at h
  refine foldE_err (UnknownTypeErr keys) _ ?_ _ _ _ h
  intro b node e2 hstep
  refine foldE_err (UnknownTypeErr keys) _ ?_ _ _ _ hstep
  intro b2 nm e3 hstep2
  cases hg : getNamedType keys nm with
  | error e4 =>
      simp only [hg] at hstep2
      injection hstep2 with h2
      exact h2 ▸ getNamedType_err keys nm e4 hg
  | ok t => simp [hg] at hstep2

/-- Any error of `buildUnionTypes` is an unknown-type error. -/
theorem buildUnionTypes_err (keys : List String) (nodes : List TypeNode) (e : String)
    (h : buildUnionTypes keys nodes = .error e) : UnknownTypeErr keys e := by
  unfold buildUnionTypes at h
  refine foldE_err (UnknownTypeErr keys) _ ?_ _ _ _ h
  intro b node e2 hstep
  refine foldE_err (UnknownTypeErr keys) _ ?_ _ _ _ hstep
  intro b2 nm e3 hstep2
  cases hg : getNamedType keys nm with
  | error e4 =>
      simp only [hg] at hstep2
      injection hstep2 with h2
      exact h2 ▸ getNamedType_err keys nm e4 hg
  | ok t => simp [hg] at hstep2

/-- Any error of `getOperationTypes` is an unknown-type error. -/
theorem getOperationTypes_err (keys : List String) (nodes : List SchemaNode) (e : String)
    (h : getOperationTypes keys nodes = .error e) : UnknownTypeErr keys e := by
  unfold getOperationTypes at h
  refine foldE_err (UnknownTypeErr keys) _ ?_ _ _ _ h
  intro b node e2 hstep
  refine foldE_err (UnknownTypeErr keys) _ ?_ _ _ _ hstep
  intro b2 ot e3 hstep2
  cases hg : getNamedType keys ot.type with
  | error e4 =>
      simp only [hg] at hstep2
      injection hstep2 with h2
      exact h2 ▸ getNamedType_err keys ot.type e4 hg
  | ok t => simp [hg] at hstep2

/-- Any error of `buildDirective` is an unknown-type error. -/
theorem buildDirective_err (keys : List String) (node : DirectiveDefNode) (e : String)
    (h : buildDirective keys node = .error e) : UnknownTypeErr keys e := by
  unfold buildDirective at h
  cases ha : buildArgumentMap keys node.arguments with
  | error e2 =>
      simp only [ha] at h
      injection h with h2
      exact h2 ▸ buildArgumentMap_err keys node.arguments e2 ha
  | ok args => simp [ha] at h

end GraphQL

namespace GraphQL

/-- Any error of `extendObjectType` is an unknown-type error. -/
theorem extendObjectType_err (keys : List String) (extMap : List (String × List TypeNode))
    (t : NamedType) (e : String) (h : extendObjectType keys extMap t = .error e) :
    UnknownTypeErr keys e := by
  cases t with
  | object n d ifs flds ast ext =>
      unfold extendObjectType at h
      cases hi : buildInterfaces keys ((lookupKey extMap n).getD []) with
      | error e2 =>
          simp only [hi] at h
          injection h with h2
          exact h2 ▸ buildInterfaces_err _ _ _ hi
      | ok newIfs =>
          simp only [hi] at h
          cases hf : buildFieldMap keys ((lookupKey extMap n).getD []) with
          | error e2 =>
              simp only [hf] at h
              injection h with h2
              exact h2 ▸ buildFieldMap_err _ _ _ hf
          | ok nf => simp [hf] at h
  | scalar n d s ast ext => exact Except.noConfusion h
  | iface n d ifs flds ast ext => exact Except.noConfusion h
  | union n d ts ast ext => exact Except.noConfusion h
  | enum n d vs ast ext => exact Except.noConfusion h
  | inputObject n d flds ast ext => exact Except.noConfusion h

/-- Any error of `extendInterfaceType` is an unknown-type error. -/
theorem extendInterfaceType_err (keys : List String) (extMap : List (String × List TypeNode))
    (t : NamedType) (e : String) (h : extendInterfaceType keys extMap t = .error e) :
    UnknownTypeErr keys e := by
  cases t with
  | iface n d ifs flds ast ext =>
      unfold extendInterfaceType at h
      cases hi : buildInterfaces keys ((lookupKey extMap n).getD []) with
      | error e2 =>
          simp only [hi] at h
          injection h with h2
          exact h2 ▸ buildInterfaces_err _ _ _ hi
      | ok newIfs =>
          simp only [hi] at h
          cases hf : buildFieldMap keys ((lookupKey extMap n).getD []) with
          | error e2 =>
              simp only [hf] at h
              injection h with h2
              exact h2 ▸ buildFieldMap_err _ _ _ hf
          | ok nf => simp [hf] at h
  | scalar n d s ast ext => exact Except.noConfusion h
  | object n d ifs flds ast ext => exact Except.noConfusion h
  | union n d ts ast ext => exact Except.noConfusion h
  | enum n d vs ast ext => exact Except.noConfusion h
  | inputObject n d flds ast ext => exact Except.noConfusion h

/-- Any error of `extendUnionType` is an unknown-type error. -/
theorem extendUnionType_err (keys : List String) (extMap : List (String × List TypeNode))
    (t : NamedType) (e : String) (h : extendUnionType keys extMap t = .error e) :
    UnknownTypeErr keys e := by
  cases t with
  | union n d ts ast ext =>
      unfold extendUnionType at h
      cases hu : buildUnionTypes keys ((lookupKey extMap n).getD []) with
      | error e2 =>
          simp only [hu] at h
          injection h with h2
          exact h2 ▸ buildUnionTypes_err _ _ _ hu
      | ok newTs => simp [hu] at h
  | scalar n d s ast ext => exact Except.noConfusion h
  | object n d ifs flds ast ext => exact Except.noConfusion h
  | iface n d ifs flds ast ext => exact Except.noConfusion h
  | enum n d vs ast ext => exact Except.noConfusion h
  | inputObject n d flds ast ext => exact Except.noConfusion h

/-- Any error of `extendInputObjectType` is an unknown-type error. -/
theorem extendInputObjectType_err (keys : List String) (extMap : List (String × List TypeNode))
    (t : NamedType) (e : String) (h : extendInputObjectType keys extMap t = .error e) :
    UnknownTypeErr keys e := by
  cases t with
  | inputObject n d flds ast ext =>
      unfold extendInputObjectType at h
      cases hf : buildInputFieldMap keys ((lookupKey extMap n).getD []) with
      | error e2 =>
          simp only [hf] at h
          injection h with h2
          exact h2 ▸ buildInputFieldMap_err _ _ _ hf
      | ok nf => simp [hf] at h
  | scalar n d s ast ext => exact Except.noConfusion h
  | object n d ifs flds ast ext => exact Except.noConfusion h
  | iface n d ifs flds ast ext => exact Except.noConfusion h
  | union n d ts ast ext => exact Except.noConfusion h
  | enum n d vs ast ext => exact Except.noConfusion h

/-- Any error of `extendNamedType` is an unknown-type error. -/
theorem extendNamedType_err (keys : List String) (extMap : List (String × List TypeNode))
    (t : NamedType) (e : String) (h : extendNamedType keys extMap t = .error e) :
    UnknownTypeErr keys e := by
  unfold extendNamedType at h
  split at h
  · exact Except.noConfusion h
  · split at h
    · exact Except.noConfusion h
    · exact extendObjectType_err _ _ _ _ h
    · exact extendInterfaceType_err _ _ _ _ h
    · exact extendUnionType_err _ _ _ _ h
    · exact Except.noConfusion h
    · exact extendInputObjectType_err _ _ _ _ h

/-- Any error of `buildType` is an unknown-type error. -/
theorem buildType_err (keys : List String) (extMap : List (String × List TypeNode))
    (node : TypeNode) (e : String) (h : buildType keys extMap node = .error e) :
    UnknownTypeErr keys e := by
  simp only [buildType] at h
  split at h
  · cases hi : buildInterfaces keys (node :: (lookupKey extMap node.name).getD []) with
    | error e2 =>
        simp only [hi] at h
        injection h with h2
        exact h2 ▸ buildInterfaces_err _ _ _ hi
    | ok ifs =>
        simp only [hi] at h
        cases hf : buildFieldMap keys (node :: (lookupKey extMap node.name).getD []) with
        | error e2 =>
            simp only [hf] at h
            injection h with h2
            exact h2 ▸ buildFieldMap_err _ _ _ hf
        | ok flds => simp [hf] at h
  · cases hi : buildInterfaces keys (node :: (lookupKey extMap node.name).getD []) with
    | error e2 =>
        simp only [hi] at h
        injection h with h2
        exact h2 ▸ buildInterfaces_err _ _ _ hi
    | ok ifs =>
        simp only [hi] at h
        cases hf : buildFieldMap keys (node :: (lookupKey extMap node.name).getD []) with
        | error e2 =>
            simp only [hf] at h
            injection h with h2
            exact h2 ▸ buildFieldMap_err _ _ _ hf
        | ok flds => simp [hf] at h
  · exact Except.noConfusion h
  · cases hu : buildUnionTypes keys (node :: (lookupKey extMap node.name).getD []) with
    | error e2 =>
        simp only [hu] at h
        injection h with h2
        exact h2 ▸ buildUnionTypes_err _ _ _ hu
    | ok ts => simp [hu] at h
  · exact Except.noConfusion h
  · cases hf : buildInputFieldMap keys (node :: (lookupKey extMap node.name).getD []) with
    | error e2 =>
        simp only [hf] at h
        injection h with h2
        exact h2 ▸ buildInputFieldMap_err _ _ _ hf
    | ok flds => simp [hf] at h

/-- Any error of `buildTypeMap` is an unknown-type error. -/
theorem buildTypeMap_err (keys : List String) (extMap : List (String × List TypeNode))
    (cfg : SchemaConfig) (typeDefs : List TypeNode) (e : String)
    (h : buildTypeMap keys extMap cfg typeDefs = .error e) : UnknownTypeErr keys e := by
  unfold buildTypeMap at h
  split at h
  · next e2 h1 =>
      injection h with h2
      refine h2 ▸ foldE_err (UnknownTypeErr keys) _ ?_ _ _ _ h1
      intro b t e3 hstep
      cases he : extendNamedType keys extMap t with
      | error e4 =>
          simp only [he] at hstep
          injection hstep with h3
          exact h3 ▸ extendNamedType_err _ _ _ _ he
      | ok t2 => simp [he] at hstep
  · next tm h1 =>
      refine foldE_err (UnknownTypeErr keys) _ ?_ _ _ _ h
      intro b node e3 hstep
      cases hs : lookupKey stdTypeMap node.name with
      | some std => simp [hs] at hstep
      | none =>
          simp only [hs] at hstep
          cases hb : buildType keys extMap node with
          | error e4 =>
              simp only [hb] at hstep
              injection hstep with h3
              exact h3 ▸ buildType_err _ _ _ _ hb
          | ok t => simp [hb] at hstep

end GraphQL

namespace GraphQL

/-- C6: a named-type reference found in neither the built-in table nor the
type map fails with the unknown-type error carrying the offending name, and
every error the build can produce is of that shape (for a name missing from
both lookups against the build's frozen key set) — the whole build aborts
with it and no partial configuration is returned. -/
theorem unknown_type_only_error :
    (∀ (keys : List String) (name : String),
        lookupKey stdTypeMap name = none → keys.contains name = false →
        getNamedType keys name = .error (unknownTypeMsg name)) ∧
    (∀ (cfg : SchemaConfig) (doc : Document) (opts : Option Options) (e : String),
        extendSchemaImpl cfg doc opts = .error e →
        UnknownTypeErr (typeMapKeys cfg (partitionDefs doc.definitions).typeDefs) e) := by
  constructor
  · intro keys name h1 h2
    unfold getNamedType
    rw [h1, if_neg]
    intro h3
    rw [h2] at h3
    exact Bool.noConfusion h3
  · intro cfg doc opts e h
    simp only [extendSchemaImpl] at h
    split at h
    · exact Except.noConfusion h
    · cases htm : buildTypeMap (typeMapKeys cfg (partitionDefs doc.definitions).typeDefs)
          (partitionDefs doc.definitions).typeExtensionsMap cfg
          (partitionDefs doc.definitions).typeDefs with
      | error e2 =>
          simp only [htm] at h
          injection h with h2
          exact h2 ▸ buildTypeMap_err _ _ _ _ _ htm
      | ok tm =>
          simp only [htm] at h
          cases hD : getOperationTypes (typeMapKeys cfg (partitionDefs doc.definitions).typeDefs)
              (schemaDefNodes (partitionDefs doc.definitions)) with
          | error e2 =>
              simp only [hD] at h
              injection h with h2
              exact h2 ▸ getOperationTypes_err _ _ _ hD
          | ok opsD =>
              simp only [hD] at h
              cases hE : getOperationTypes
                  (typeMapKeys cfg (partitionDefs doc.definitions).typeDefs)
                  (partitionDefs doc.definitions).schemaExtensions with
              | error e2 =>
                  simp only [hE] at h
                  injection h with h2
                  exact h2 ▸ getOperationTypes_err _ _ _ hE
              | ok opsE =>
                  simp only [hE] at h
                  cases hm : mapE (buildDirective
                      (typeMapKeys cfg (partitionDefs doc.definitions).typeDefs))
                      (partitionDefs doc.definitions).directiveDefs with
                  | error e2 =>
                      simp only [hm] at h
                      injection h with h2
                      refine h2 ▸ mapE_err (UnknownTypeErr _) _ ?_ _ _ hm
                      intro a e3 hb
                      exact buildDirective_err _ _ _ hb
                  | ok nd => simp [hm] at h

/-- C6 witness: the name `Foo` misses both lookups and produces the
unknown-type error, and a concrete document referencing the undefined type
`Missing` makes the whole build fail with exactly that error shape. -/
theorem unknown_type_only_error_witness :
    getNamedType [] "Foo" = .error (unknownTypeMsg "Foo") ∧
    extendSchemaImpl cfgEmpty docBadField none = .error (unknownTypeMsg "Missing") ∧
    UnknownTypeErr (typeMapKeys cfgEmpty (partitionDefs docBadField.definitions).typeDefs)
      (unknownTypeMsg "Missing") :=
  ⟨unknown_type_only_error.1 [] "Foo" rfl rfl, rfl,
   unknown_type_only_error.2 cfgEmpty docBadField none _ rfl⟩

end GraphQL

namespace GraphQL

/-- Folding over a concatenation folds the two parts in sequence. -/
theorem foldE_append {α β : Type} (f : β → α → Except String β) (xs ys : List α) :
    ∀ b : β, foldE f b (xs ++ ys) =
      match foldE f b xs with
      | .error e => .error e
      | .ok b2 => foldE f b2 ys := by
  induction xs with
  | nil => intro b; rfl
  | cons a xs ih =>
      intro b
      show foldE f b (a :: (xs ++ ys)) = _
      cases hfa : f b a with
      | error e => simp [foldE, hfa]
      | ok b2 => simp [foldE, hfa, ih b2]

/-- A value found by lookup is among the map's values. -/
theorem lookupKey_mem {α : Type} (m : List (String × α)) (k : String) (v : α)
    (h : lookupKey m k = some v) : v ∈ objectValues m := by
  induction m with
  | nil => simp [lookupKey] at h
  | cons kv rest ih =>
      obtain ⟨k1, w⟩ := kv
      by_cases h1 : k1 = k
      · simp only [lookupKey, if_pos h1] at h
        injection h with h2
        simp [objectValues, h2]
      · simp only [lookupKey, if_neg h1] at h
        simp [objectValues]
        exact Or.inr (by simpa [objectValues] using ih h)

end GraphQL

namespace GraphQL

/-- C8: a type-definition node whose name is a specification scalar or
introspection type name registers the built-in instance in the type map, not
a type built from the AST node, whatever the node's content or the
extensions targeting the name; the built-in instance is in the output type
set. -/
theorem std_name_substitution (cfg : SchemaConfig) (doc : Document) (opts : Option Options)
    (out : SchemaConfig) (node : TypeNode) (std : NamedType)
    (hmem : node ∈ (partitionDefs doc.definitions).typeDefs)
    (hstd : lookupKey stdTypeMap node.name = some std)
    (himpl : extendSchemaImpl cfg doc opts = .ok out) :
    ∃ tm, buildTypeMap (typeMapKeys cfg (partitionDefs doc.definitions).typeDefs)
        (partitionDefs doc.definitions).typeExtensionsMap cfg
        (partitionDefs doc.definitions).typeDefs = .ok tm ∧
      lookupKey tm node.name = some std ∧ out.types = objectValues tm ∧
      std ∈ out.types := by
  have hno : noOpSignal (partitionDefs doc.definitions) = false := by
    unfold noOpSignal
    cases htd : (partitionDefs doc.definitions).typeDefs with
    | nil => rw [htd] at hmem; simp at hmem
    | cons a l => simp [htd]
  simp only [extendSchemaImpl] at himpl
  split at himpl
  · simp_all
  · cases htm : buildTypeMap (typeMapKeys cfg (partitionDefs doc.definitions).typeDefs)
        (partitionDefs doc.definitions).typeExtensionsMap cfg
        (partitionDefs doc.definitions).typeDefs with
    | error e =>
        simp only [htm] at himpl
        exact Except.noConfusion himpl
    | ok tm =>
        have hlk : lookupKey tm node.name = some std := by
          unfold buildTypeMap at htm
          split at htm
          · exact Except.noConfusion htm
          · obtain ⟨l1, l2, hsplit⟩ := List.append_of_mem hmem
            rw [hsplit, foldE_append] at htm
            cases hA : foldE _ _ l1 with
            | error e => rw [hA] at htm; exact Except.noConfusion htm
            | ok tmA =>
                rw [hA] at htm
                simp only [foldE, hstd] at htm
                refine foldE_preserve (fun m => lookupKey m node.name = some std) _ ?_
                  l2 _ tm (lookupKey_insertKey_self tmA node.name std) htm
                intro b a b' hP hstep
                by_cases hname : a.name = node.name
                · rw [hname] at hstep
                  simp only [hstd] at hstep
                  injection hstep with h2
                  rw [← h2]
                  exact lookupKey_insertKey_self b node.name std
                · cases hs2 : lookupKey stdTypeMap a.name with
                  | some s2 =>
                      simp only [hs2] at hstep
                      injection hstep with h2
                      rw [← h2, lookupKey_insertKey_ne b a.name node.name s2 hname]
                      exact hP
                  | none =>
                      simp only [hs2] at hstep
                      split at hstep
                      · exact Except.noConfusion hstep
                      · injection hstep with h2
                        rw [← h2, lookupKey_insertKey_ne b a.name node.name _ hname]
                        exact hP
        simp only [htm] at himpl
        split at himpl
        · exact Except.noConfusion himpl
        · split at himpl
          · exact Except.noConfusion himpl
          · split at himpl
            · exact Except.noConfusion himpl
            · injection himpl with hout
              refine ⟨tm, rfl, hlk, ?_, ?_⟩
              · rw [← hout]
              · rw [← hout]
                exact lookupKey_mem tm node.name std hlk

end GraphQL

namespace GraphQL

/-- C8 witness: a document redefining `String` yields the built-in `String`
scalar in the output type set. -/
theorem std_name_substitution_witness :
    extendSchemaImpl cfgEmpty docRedefString none = .ok outRedef ∧
    NamedType.scalar "String" none none none [] ∈ outRedef.types := by
  refine ⟨rfl, ?_⟩
  obtain ⟨tm, htm, hlk, hty, hmem⟩ := std_name_substitution cfgEmpty docRedefString none
    outRedef nodeRedefString (NamedType.scalar "String" none none none [])
    (by simp [partitionDefs, partitionStep, emptyPartition, docRedefString]) rfl rfl
  exact hmem

/-- An invariant preserved by every successful step on a list member holds
of the fold's result. -/
theorem foldE_preserve_mem {α β : Type} (P : β → Prop) (f : β → α → Except String β) :
    ∀ (l : List α), (∀ b a b', a ∈ l → P b → f b a = .ok b' → P b') →
      ∀ (b b' : β), P b → foldE f b l = .ok b' → P b' := by
  intro l
  induction l with
  | nil =>
      intro _ b b' hP h
      simp [foldE] at h
      exact h ▸ hP
  | cons a l ih =>
      intro hstep b b' hP h
      cases hfa : f b a with
      | error e => simp [foldE, hfa] at h
      | ok b2 =>
          simp only [foldE, hfa] at h
          exact ih (fun b a2 b2' ha2 => hstep b a2 b2' (by simp [ha2]))
            b2 b' (hstep b a b2 (by simp) hP hfa) h

/-- C10: a type-definition node whose name is not built-in and is the last
document definition of that name has its built type registered under that
name in the final map — in particular it silently overwrites the rebuilt
base-schema type of the same name, since existing types are registered
first and new definitions second. -/
theorem document_type_overwrites_base (cfg : SchemaConfig) (doc : Document)
    (opts : Option Options) (out : SchemaConfig) (node : TypeNode)
    (l1 l2 : List TypeNode)
    (hsplit : (partitionDefs doc.definitions).typeDefs = l1 ++ node :: l2)
    (hlast : ∀ d ∈ l2, d.name ≠ node.name)
    (hstd : lookupKey stdTypeMap node.name = none)
    (hbase : ∃ bt ∈ cfg.types, NamedType.name bt = node.name)
    (himpl : extendSchemaImpl cfg doc opts = .ok out) :
    ∃ t tm, buildType (typeMapKeys cfg (partitionDefs doc.definitions).typeDefs)
        (partitionDefs doc.definitions).typeExtensionsMap node = .ok t ∧
      buildTypeMap (typeMapKeys cfg (partitionDefs doc.definitions).typeDefs)
        (partitionDefs doc.definitions).typeExtensionsMap cfg
        (partitionDefs doc.definitions).typeDefs = .ok tm ∧
      lookupKey tm node.name = some t ∧ out.types = objectValues tm ∧ t ∈ out.types := by
  have hno : noOpSignal (partitionDefs doc.definitions) = false := by
    simp [noOpSignal, hsplit]
  simp only [extendSchemaImpl] at himpl
  split at himpl
  · simp_all
  · cases htm : buildTypeMap (typeMapKeys cfg (partitionDefs doc.definitions).typeDefs)
        (partitionDefs doc.definitions).typeExtensionsMap cfg
        (partitionDefs doc.definitions).typeDefs with
    | error e =>
        simp only [htm] at himpl
        exact Except.noConfusion himpl
    | ok tm =>
        have hmain : ∃ t, buildType (typeMapKeys cfg (partitionDefs doc.definitions).typeDefs)
            (partitionDefs doc.definitions).typeExtensionsMap node = .ok t ∧
            lookupKey tm node.name = some t := by
          unfold buildTypeMap at htm
          split at htm
          · exact Except.noConfusion htm
          · rw [hsplit, foldE_append] at htm
            cases hA : foldE _ _ l1 with
            | error e => rw [hA] at htm; exact Except.noConfusion htm
            | ok tmA =>
                rw [hA] at htm
                simp only [foldE, hstd] at htm
                split at htm
                · exact Except.noConfusion htm
                · next b2 heq =>
                    split at heq
                    · exact Except.noConfusion heq
                    · next t hb =>
                        injection heq with heq2
                        subst heq2
                        rw [← hsplit] at hb htm
                        refine ⟨t, hb, ?_⟩
                        refine foldE_preserve_mem (fun m => lookupKey m node.name = some t) _
                          l2 ?_ _ tm (lookupKey_insertKey_self tmA node.name t) htm
                        intro b a b' ha hP hstep
                        have hname : a.name ≠ node.name := hlast a ha
                        cases hs2 : lookupKey stdTypeMap a.name with
                        | some s2 =>
                            simp only [hs2] at hstep
                            injection hstep with h2
                            rw [← h2, lookupKey_insertKey_ne b a.name node.name s2 hname]
                            exact hP
                        | none =>
                            simp only [hs2] at hstep
                            split at hstep
                            · exact Except.noConfusion hstep
                            · injection hstep with h2
                              rw [← h2, lookupKey_insertKey_ne b a.name node.name _ hname]
                              exact hP
        obtain ⟨t, hb, hlk⟩ := hmain
        simp only [htm] at himpl
        split at himpl
        · exact Except.noConfusion himpl
        · split at himpl
          · exact Except.noConfusion himpl
          · split at himpl
            · exact Except.noConfusion himpl
            · injection himpl with hout
              refine ⟨t, tm, hb, rfl, hlk, ?_, ?_⟩
              · rw [← hout]
              · rw [← hout]
                exact lookupKey_mem tm node.name t hlk

/-- C10 witness: a document redefining the base object type `T` as an enum
puts the document's enum, not the base object type, in the output. -/
theorem document_type_overwrites_base_witness :
    extendSchemaImpl cfgWithT docTEnum none = .ok outOverwrite ∧
    NamedType.enum "T" none [] (some nodeTEnum) [] ∈ outOverwrite.types ∧
    ntT ∉ outOverwrite.types := by
  refine ⟨rfl, ?_, by decide⟩
  obtain ⟨t, tm, hb, htm, hlk, hty, hmem⟩ := document_type_overwrites_base cfgWithT docTEnum
    none outOverwrite nodeTEnum [] []
    (by simp [partitionDefs, partitionStep, emptyPartition, docTEnum])
    (by simp) rfl ⟨ntT, by simp [cfgWithT], rfl⟩ rfl
  have ht : t = NamedType.enum "T" none [] (some nodeTEnum) [] := by
    have h2 : Except.ok t = Except.ok (NamedType.enum "T" none [] (some nodeTEnum) []) :=
      hb.symm.trans rfl
    injection h2
  exact ht ▸ hmem

end GraphQL
